import Mathlib

/-!
Shallow embedding of the project-detail controller of `src/src/pages/ProjectPage.tsx`.

The page holds a transient local `Project` copy, derives the current user's
role from membership data, gates two privileged mutations (status change,
delete) behind permission flags, and builds a deduplicated member list for
display.  JavaScript peculiarities that the code relies on are modelled
explicitly: the falsiness of the empty string and of `undefined` (`strTruthy`),
the `a || b` fallback on identifier fields (`jsOr`), and membership values
that are either bare identifier strings or embedded user records (`Member`).
The `Set<string>` used for deduplication is modelled as a list queried only
through membership.  Remote calls are modelled by passing their outcome
(`Except ApiError _`) as an explicit argument, and the handlers return the
resulting local state together with the observable effects (toasts issued,
collaborator calls made, navigation target).
-/

namespace ProjectPage

/-- JavaScript truthiness of an optional string: `undefined` and `""` are
falsy, every other string is truthy. -/
def strTruthy : Option String → Bool
  | some s => s != ""
  | none => false

/-- JavaScript `a || b` on optional strings: `a` when truthy, else `b`. -/
def jsOr (a b : Option String) : Option String :=
  if strTruthy a then a else b

/-- JavaScript `a || fallback` producing a definite string, as in
`error.response?.data?.message || '…'`. -/
def jsOrStr (a : Option String) (fallback : String) : String :=
  match a with
  | some s => if s != "" then s else fallback
  | none => fallback

/-- An embedded user record as returned by the backend (`User` from
`@/utils/api`): the page reads only the `_id` and `id` identifier fields;
the remaining display attributes are collapsed into `name`. -/
structure User where
  _id : Option String
  id : Option String
  name : String
deriving DecidableEq, Repr

/-- Normalized identifier of an embedded record: `u._id || u.id`
(lines 59, 66, 72, 205, 216, 229 of ProjectPage.tsx). -/
def normId (u : User) : Option String :=
  jsOr u._id u.id

/-- A membership entry: either a bare identifier string or an embedded
user record (the code branches on `typeof x === 'object'`). -/
inductive Member where
  | str : String → Member
  | user : User → Member
deriving DecidableEq, Repr

/-- Normalized identifier of a membership entry:
`typeof m === 'object' ? (m._id || m.id) : m`. -/
def memberId : Member → Option String
  | Member.str s => some s
  | Member.user u => normId u

/-- Project status enumeration: `'Actif' | 'Inactif' | 'Archivé'`
(`Archive` stands for the accented literal). -/
inductive Status where
  | Actif
  | Inactif
  | Archive
deriving DecidableEq, Repr

/-- The literal status string, used in the success-toast interpolation. -/
def statusLabel : Status → String
  | Status.Actif => "Actif"
  | Status.Inactif => "Inactif"
  | Status.Archive => "Archivé"

/-- The project record held as local state.  `admins` and `team` are
optional because the code guards them with `Array.isArray`. -/
structure Project where
  _id : String
  name : String
  description : Option String
  status : Status
  owner : Member
  admins : Option (List Member)
  team : Option (List Member)
deriving DecidableEq, Repr

/-- The derived role: `'owner' | 'admin' | 'team' | null`
(`Role.none` models `null`). -/
inductive Role where
  | owner
  | admin
  | team
  | none
deriving DecidableEq, Repr

/-- `Array.isArray(l) && l.some(x => normalize(x) === currentUserId)`
(lines 64-68 and 70-74 of ProjectPage.tsx). -/
def memberListSome (l : Option (List Member)) (currentUserId : String) : Bool :=
  match l with
  | some ms => ms.any fun m => memberId m == some currentUserId
  | none => false

/-- Role derivation performed by `loadProject` on the fetched record
(lines 58-78 of ProjectPage.tsx): owner, else admin, else team, else null. -/
def deriveRole (data : Project) (currentUserId : String) : Role :=
  let ownerId := memberId data.owner
  if some currentUserId == ownerId then Role.owner
  else if memberListSome data.admins currentUserId then Role.admin
  else if memberListSome data.team currentUserId then Role.team
  else Role.none

/-- `isOwner = userRole === 'owner'` (line 97). -/
def isOwner (userRole : Role) : Bool :=
  userRole == Role.owner

/-- `canEditProject = isOwner` (line 98). -/
def canEditProject (userRole : Role) : Bool := isOwner userRole

/-- `canDeleteProject = isOwner` (line 99). -/
def canDeleteProject (userRole : Role) : Bool := isOwner userRole

/-- `canManageTeam = isOwner` (line 100). -/
def canManageTeam (userRole : Role) : Bool := isOwner userRole

/-- `canCreateTicket = isOwner` (line 101). -/
def canCreateTicket (userRole : Role) : Bool := isOwner userRole

/-- `canChangeStatus = isOwner` (line 102). -/
def canChangeStatus (userRole : Role) : Bool := isOwner userRole

/-- A toast notification `{title, description, variant}`. -/
structure Toast where
  title : String
  description : String
  variant : Option String
deriving DecidableEq, Repr

/-- A failed collaborator call; `message` models the
`error.response?.data?.message` chain (present and possibly empty, or absent). -/
structure ApiError where
  message : Option String
deriving DecidableEq, Repr

/-- The access-denied toast of `handleStatusChange` (lines 107-111). -/
def statusDeniedToast : Toast :=
  ⟨"Accès refusé", "Seul le propriétaire peut modifier le statut du projet", some "destructive"⟩

/-- Result of `handleStatusChange`: the new local `project` state, the
toasts issued, whether `projectService.update` was called, and whether any
re-fetch (`projectService.getById` via `loadProject`) was issued. -/
structure StatusChangeResult where
  project : Option Project
  toasts : List Toast
  updateCalled : Bool
  refetchCalled : Bool
deriving DecidableEq, Repr

/-- `handleStatusChange` (lines 105-130): guard on `!project || !canChangeStatus`,
then `await projectService.update(project._id, { status })`; on success patch
the local status (no re-fetch) and toast; on failure toast the server message
or a generic one, leaving the state untouched.  The outcome of the update
call is passed in as `updateResult`. -/
def handleStatusChange (project : Option Project) (canChange : Bool)
    (status : Status) (updateResult : Except ApiError Unit) : StatusChangeResult :=
  match project with
  | none => ⟨none, [statusDeniedToast], false, false⟩
  | some proj =>
    if !canChange then ⟨some proj, [statusDeniedToast], false, false⟩
    else
      match updateResult with
      | Except.ok _ =>
        ⟨some { proj with status := status },
         [⟨"Statut modifié", "Le projet est maintenant \"" ++ statusLabel status ++ "\".", none⟩],
         true, false⟩
      | Except.error e =>
        ⟨some proj,
         [⟨"Erreur", jsOrStr e.message "Impossible de modifier le statut", some "destructive"⟩],
         true, false⟩

/-- The access-denied toast of `handleDelete` (lines 135-139). -/
def deleteDeniedToast : Toast :=
  ⟨"Accès refusé", "Seul le propriétaire peut supprimer le projet", some "destructive"⟩

/-- Result of `handleDelete`: local `project` state (never written by the
handler), toasts, whether `projectService.delete` was called, and the
navigation target if any. -/
structure DeleteResult where
  project : Option Project
  toasts : List Toast
  deleteCalled : Bool
  navigatedTo : Option String
deriving DecidableEq, Repr

/-- `handleDelete` (lines 133-159): guard on `!project || !canDeleteProject`,
then `await projectService.delete(project._id)`; on success toast and
navigate to "/"; on failure toast the server message or a generic one. -/
def handleDelete (project : Option Project) (canDelete : Bool)
    (deleteResult : Except ApiError Unit) : DeleteResult :=
  match project with
  | none => ⟨none, [deleteDeniedToast], false, none⟩
  | some proj =>
    if !canDelete then ⟨some proj, [deleteDeniedToast], false, none⟩
    else
      match deleteResult with
      | Except.ok _ =>
        ⟨some proj,
         [⟨"Projet supprimé", "Le projet \"" ++ proj.name ++ "\" a été supprimé.", some "destructive"⟩],
         true, some "/"⟩
      | Except.error e =>
        ⟨some proj,
         [⟨"Erreur", jsOrStr e.message "Impossible de supprimer le projet", some "destructive"⟩],
         true, none⟩

/-- The local component state touched by `loadProject`. -/
structure PageState where
  project : Option Project
  isLoading : Bool
  userRole : Role
deriving DecidableEq, Repr

/-- Result of `loadProject`: the state after the call and the effects. -/
structure LoadResult where
  state : PageState
  toasts : List Toast
  navigatedTo : Option String
deriving DecidableEq, Repr

/-- The load-failure toast (lines 80-84). -/
def loadErrorToast : Toast :=
  ⟨"Erreur", "Impossible de charger le projet", some "destructive"⟩

/-- `loadProject` (lines 49-90): `if (!id) return;` before the try block,
then fetch; on success store the record and the derived role; on failure
toast, log and navigate to "/"; the `finally` clears the loading flag.  The
outcome of `projectService.getById(id)` is passed in as `fetchResult`. -/
def loadProject (id : Option String) (currentUserId : String)
    (fetchResult : Except ApiError Project) (st : PageState) : LoadResult :=
  if !(strTruthy id) then ⟨st, [], none⟩
  else
    match fetchResult with
    | Except.ok data =>
      ⟨⟨some data, false, deriveRole data currentUserId⟩, [], none⟩
    | Except.error _ =>
      ⟨⟨st.project, false, st.userRole⟩, [loadErrorToast], some "/"⟩

/-- One step of `getMemberUsers` (lines 204-235): skip bare identifiers,
push an embedded record unless its normalized id is already in the seen
set.  The `Set<string>` is modelled as a list queried by membership. -/
def memberStep (acc : List User × List (Option String)) (m : Member) :
    List User × List (Option String) :=
  match m with
  | Member.str _ => acc
  | Member.user u =>
    let uid := normId u
    if uid ∈ acc.2 then acc else (acc.1 ++ [u], uid :: acc.2)

/-- `getMemberUsers` (lines 199-239): owner first, then the admins in
order, then the team in order, each stage guarded by `Array.isArray`. -/
def getMemberUsers (project : Project) : List User :=
  let acc1 := memberStep ([], []) project.owner
  let acc2 := List.foldl memberStep acc1 (project.admins.getD [])
  let acc3 := List.foldl memberStep acc2 (project.team.getD [])
  acc3.1

/-- All membership entries in first-seen order: owner, admins, team. -/
def allMembers (project : Project) : List Member :=
  project.owner :: (project.admins.getD [] ++ project.team.getD [])

/-- The embedded records of a membership list, bare identifiers dropped. -/
def embeddedUsers : List Member → List User
  | [] => []
  | Member.str _ :: rest => embeddedUsers rest
  | Member.user u :: rest => u :: embeddedUsers rest

/-- Modelled from the spec: first-seen-order deduplication by normalized
identifier ("preserving first-seen order … skipping any identifier already
added"), stated as a direct recursion to compare with `getMemberUsers`. -/
def dedupByKey : List User → List (Option String) → List User
  | [], _ => []
  | u :: rest, seen =>
    if normId u ∈ seen then dedupByKey rest seen
    else u :: dedupByKey rest (normId u :: seen)

/-- The seen-set produced alongside `dedupByKey`. -/
def dedupKeys : List User → List (Option String) → List (Option String)
  | [], seen => seen
  | u :: rest, seen =>
    if normId u ∈ seen then dedupKeys rest seen
    else dedupKeys rest (normId u :: seen)

/-- The spec's description of the member list: deduplicate the embedded
records of owner + admins + team in first-seen order. -/
def memberUsersSpec (project : Project) : List User :=
  dedupByKey (embeddedUsers (allMembers project)) []

/-! ### Helper lemmas -/

/-- `memberListSome` holds exactly when the field is an array one of whose
elements normalizes to the current user id. -/
theorem memberListSome_iff (l : Option (List Member)) (cur : String) :
    memberListSome l cur = true ↔
      ∃ ms, l = some ms ∧ ∃ m ∈ ms, memberId m = some cur := by
  cases l with
  | none => simp [memberListSome]
  | some ms => simp [memberListSome, List.any_eq_true]

/-- The owner branch of role derivation fires exactly on a normalized
owner-id match. -/
theorem deriveRole_eq_owner_iff (p : Project) (cur : String) :
    deriveRole p cur = Role.owner ↔ memberId p.owner = some cur := by
  unfold deriveRole
  by_cases h1 : memberId p.owner = some cur
  · simp [h1]
  · have hb : (some cur == memberId p.owner) = false := by
      rw [Bool.eq_false_iff]
      intro hc
      exact h1 (beq_iff_eq.mp hc).symm
    cases h2 : memberListSome p.admins cur <;>
      cases h3 : memberListSome p.team cur <;>
        simp [hb, h2, h3, h1]

/-- The admin branch fires exactly when the owner check fails and some
admin entry matches. -/
theorem deriveRole_eq_admin_iff (p : Project) (cur : String) :
    deriveRole p cur = Role.admin ↔
      memberId p.owner ≠ some cur ∧ memberListSome p.admins cur = true := by
  unfold deriveRole
  by_cases h1 : memberId p.owner = some cur
  · simp [h1]
  · have hb : (some cur == memberId p.owner) = false := by
      rw [Bool.eq_false_iff]
      intro hc
      exact h1 (beq_iff_eq.mp hc).symm
    cases h2 : memberListSome p.admins cur <;>
      cases h3 : memberListSome p.team cur <;>
        simp [hb, h2, h3, h1]

/-- The team branch fires exactly when owner and admin checks fail and
some team entry matches. -/
theorem deriveRole_eq_team_iff (p : Project) (cur : String) :
    deriveRole p cur = Role.team ↔
      memberId p.owner ≠ some cur ∧ memberListSome p.admins cur = false ∧
        memberListSome p.team cur = true := by
  unfold deriveRole
  by_cases h1 : memberId p.owner = some cur
  · simp [h1]
  · have hb : (some cur == memberId p.owner) = false := by
      rw [Bool.eq_false_iff]
      intro hc
      exact h1 (beq_iff_eq.mp hc).symm
    cases h2 : memberListSome p.admins cur <;>
      cases h3 : memberListSome p.team cur <;>
        simp [hb, h2, h3, h1]

/-- The null role is set exactly when all three checks fail. -/
theorem deriveRole_eq_none_iff (p : Project) (cur : String) :
    deriveRole p cur = Role.none ↔
      memberId p.owner ≠ some cur ∧ memberListSome p.admins cur = false ∧
        memberListSome p.team cur = false := by
  unfold deriveRole
  by_cases h1 : memberId p.owner = some cur
  · simp [h1]
  · have hb : (some cur == memberId p.owner) = false := by
      rw [Bool.eq_false_iff]
      intro hc
      exact h1 (beq_iff_eq.mp hc).symm
    cases h2 : memberListSome p.admins cur <;>
      cases h3 : memberListSome p.team cur <;>
        simp [hb, h2, h3, h1]

/-! ### Claim theorems -/

/-- C1: for every project and current-user id the derived role is exactly
one of owner/admin/team/none, decided in priority order with the first
match winning: owner on a normalized owner-id match (even if the user also
appears in admins or team), else admin on an admins match, else team on a
team match, else none. -/
theorem deriveRole_priority (p : Project) (cur : String) :
    (deriveRole p cur = Role.owner ∨ deriveRole p cur = Role.admin ∨
      deriveRole p cur = Role.team ∨ deriveRole p cur = Role.none) ∧
    (deriveRole p cur = Role.owner ↔ memberId p.owner = some cur) ∧
    (deriveRole p cur = Role.admin ↔
      memberId p.owner ≠ some cur ∧
        ∃ ms, p.admins = some ms ∧ ∃ m ∈ ms, memberId m = some cur) ∧
    (deriveRole p cur = Role.team ↔
      memberId p.owner ≠ some cur ∧ memberListSome p.admins cur = false ∧
        ∃ ms, p.team = some ms ∧ ∃ m ∈ ms, memberId m = some cur) ∧
    (deriveRole p cur = Role.none ↔
      memberId p.owner ≠ some cur ∧ memberListSome p.admins cur = false ∧
        memberListSome p.team cur = false) := by
  refine ⟨?_, deriveRole_eq_owner_iff p cur, ?_, ?_, deriveRole_eq_none_iff p cur⟩
  · cases h : deriveRole p cur
    · exact Or.inl rfl
    · exact Or.inr (Or.inl rfl)
    · exact Or.inr (Or.inr (Or.inl rfl))
    · exact Or.inr (Or.inr (Or.inr rfl))
  · rw [deriveRole_eq_admin_iff, memberListSome_iff]
  · rw [deriveRole_eq_team_iff, memberListSome_iff]

/-- C2: each of the five permission flags is true exactly when the derived
role is owner; for admin, team and none every flag is false. -/
theorem permissionFlags_iff_owner (r : Role) :
    (canEditProject r = true ↔ r = Role.owner) ∧
    (canDeleteProject r = true ↔ r = Role.owner) ∧
    (canManageTeam r = true ↔ r = Role.owner) ∧
    (canCreateTicket r = true ↔ r = Role.owner) ∧
    (canChangeStatus r = true ↔ r = Role.owner) := by
  cases r <;> decide

/-- C3: invoking `handleStatusChange` with `canChangeStatus = false` issues
the access-denied toast, never calls the update collaborator, and leaves
the local project state unchanged, whatever status was requested. -/
theorem handleStatusChange_denied (project : Option Project) (st : Status)
    (upd : Except ApiError Unit) :
    (handleStatusChange project false st upd).updateCalled = false ∧
    (handleStatusChange project false st upd).project = project ∧
    (handleStatusChange project false st upd).toasts =
      [⟨"Accès refusé", "Seul le propriétaire peut modifier le statut du projet",
        some "destructive"⟩] := by
  cases project <;> simp [handleStatusChange, statusDeniedToast]

/-- C4: invoking `handleDelete` with `canDeleteProject = false` issues the
access-denied toast, never calls the delete collaborator, and does not
navigate away; the local project state is untouched. -/
theorem handleDelete_denied (project : Option Project)
    (del : Except ApiError Unit) :
    (handleDelete project false del).deleteCalled = false ∧
    (handleDelete project false del).navigatedTo = none ∧
    (handleDelete project false del).project = project ∧
    (handleDelete project false del).toasts =
      [⟨"Accès refusé", "Seul le propriétaire peut supprimer le projet",
        some "destructive"⟩] := by
  cases project <;> simp [handleDelete, deleteDeniedToast]

/-- C5: when the update call inside `handleStatusChange` fails, the whole
local project value (and so its status) is unchanged, and a single error
toast is shown whose description is the server-provided message when one
is present (and truthy), else the generic fallback. -/
theorem handleStatusChange_failure (proj : Project) (st : Status) (e : ApiError) :
    (handleStatusChange (some proj) true st (Except.error e)).project = some proj ∧
    (handleStatusChange (some proj) true st (Except.error e)).updateCalled = true ∧
    (handleStatusChange (some proj) true st (Except.error e)).toasts =
      [⟨"Erreur", jsOrStr e.message "Impossible de modifier le statut",
        some "destructive"⟩] ∧
    ((∃ m, e.message = some m ∧ m ≠ "" ∧
        jsOrStr e.message "Impossible de modifier le statut" = m) ∨
      jsOrStr e.message "Impossible de modifier le statut" =
        "Impossible de modifier le statut") := by
  refine ⟨rfl, rfl, rfl, ?_⟩
  match e.message with
  | none => exact Or.inr (by simp [jsOrStr])
  | some m =>
    by_cases hm : m = ""
    · exact Or.inr (by simp [jsOrStr, hm])
    · exact Or.inl ⟨m, rfl, hm, by simp [jsOrStr, hm]⟩

/-- C6: when the update call inside `handleStatusChange` succeeds, the
local project's status equals the requested value, every other field is
unchanged, and no re-fetch call is issued. -/
theorem handleStatusChange_success (proj : Project) (st : Status) :
    (∃ q, (handleStatusChange (some proj) true st (Except.ok ())).project = some q ∧
      q.status = st ∧ q._id = proj._id ∧ q.name = proj.name ∧
      q.description = proj.description ∧ q.owner = proj.owner ∧
      q.admins = proj.admins ∧ q.team = proj.team) ∧
    (handleStatusChange (some proj) true st (Except.ok ())).refetchCalled = false := by
  exact ⟨⟨{ proj with status := st }, rfl, rfl, rfl, rfl, rfl, rfl, rfl, rfl⟩, rfl⟩

/-- C8: when `loadProject` runs with a present (truthy) identifier and the
fetch fails, afterwards the loading flag is false, the project (null before
the call) is still null, navigation to "/" was invoked, and the error toast
was shown. -/
theorem loadProject_failure (id : Option String) (cur : String) (e : ApiError)
    (st : PageState) (hid : strTruthy id = true) (hp : st.project = none) :
    (loadProject id cur (Except.error e) st).state.isLoading = false ∧
    (loadProject id cur (Except.error e) st).state.project = none ∧
    (loadProject id cur (Except.error e) st).navigatedTo = some "/" ∧
    (loadProject id cur (Except.error e) st).toasts = [loadErrorToast] := by
  simp [loadProject, hid, hp]

/-- Witness for C8 at a concrete identifier, error and initial state. -/
theorem loadProject_failure_witness :
    strTruthy (some "p1") = true ∧
    (loadProject (some "p1") "u1" (Except.error ⟨none⟩)
        ⟨none, true, Role.none⟩).state.isLoading = false ∧
    (loadProject (some "p1") "u1" (Except.error ⟨none⟩)
        ⟨none, true, Role.none⟩).state.project = none ∧
    (loadProject (some "p1") "u1" (Except.error ⟨none⟩)
        ⟨none, true, Role.none⟩).navigatedTo = some "/" ∧
    (loadProject (some "p1") "u1" (Except.error ⟨none⟩)
        ⟨none, true, Role.none⟩).toasts = [loadErrorToast] :=
  ⟨by decide,
    loadProject_failure (some "p1") "u1" ⟨none⟩ ⟨none, true, Role.none⟩ (by decide) rfl⟩

/-- C9 counterexample: `loadProject` invoked without an identifier returns
at `if (!id) return;` before the try/finally, so the loading flag is not
cleared — refuting "regardless of the supplied identifier". -/
theorem loadProject_no_id_keeps_loading :
    ¬ ((loadProject none "u1" (Except.error ⟨none⟩)
        ⟨none, true, Role.none⟩).state.isLoading = false) := by
  decide

/-- C9 (amended): every `loadProject` invocation whose identifier is
present and truthy clears the loading flag, whether the fetch succeeds or
fails. -/
theorem loadProject_clears_loading (id : Option String) (cur : String)
    (fr : Except ApiError Project) (st : PageState)
    (hid : strTruthy id = true) :
    (loadProject id cur fr st).state.isLoading = false := by
  cases fr <;> simp [loadProject, hid]

/-- Witness for the amended C9 at a concrete identifier and outcome. -/
theorem loadProject_clears_loading_witness :
    strTruthy (some "p1") = true ∧
    (loadProject (some "p1") "u1" (Except.error ⟨none⟩)
        ⟨none, true, Role.none⟩).state.isLoading = false :=
  ⟨by decide,
    loadProject_clears_loading (some "p1") "u1" (Except.error ⟨none⟩)
      ⟨none, true, Role.none⟩ (by decide)⟩

/-- C10: the normalized key of an embedded record is its `_id` field when
that is present and truthy, falling back to `id` otherwise; role
derivation classifies an embedded owner by exactly this key, and the
member-list deduplication step skips a record whose key was already
seen. -/
theorem normId_prefers_underscore (u : User) :
    (strTruthy u._id = true → normId u = u._id) ∧
    (strTruthy u._id = false → normId u = u.id) ∧
    (∀ p : Project, ∀ cur : String, p.owner = Member.user u →
      (deriveRole p cur = Role.owner ↔ normId u = some cur)) ∧
    (memberId (Member.user u) = normId u) ∧
    (∀ acc : List User × List (Option String), normId u ∈ acc.2 →
      memberStep acc (Member.user u) = acc) := by
  refine ⟨?_, ?_, ?_, rfl, ?_⟩
  · intro h
    simp [normId, jsOr, h]
  · intro h
    simp [normId, jsOr, h]
  · intro p cur hp
    rw [deriveRole_eq_owner_iff, hp]
    simp [memberId]
  · intro acc h
    simp [memberStep, h]

/-- Witness for C10: a record whose `_id` and `id` disagree is keyed by
`_id` alone. -/
theorem normId_prefers_underscore_witness :
    strTruthy (some "a") = true ∧
    normId ⟨some "a", some "b", "n"⟩ = some "a" :=
  ⟨by decide, (normId_prefers_underscore ⟨some "a", some "b", "n"⟩).1 (by decide)⟩

/-- Folding `memberStep` appends exactly the first-seen deduplication of
the embedded records, threading the seen-set. -/
theorem foldl_memberStep (ms : List Member) (us : List User)
    (seen : List (Option String)) :
    List.foldl memberStep (us, seen) ms =
      (us ++ dedupByKey (embeddedUsers ms) seen,
        dedupKeys (embeddedUsers ms) seen) := by
  induction ms generalizing us seen with
  | nil => simp [embeddedUsers, dedupByKey, dedupKeys]
  | cons m rest ih =>
    cases m with
    | str s => simpa [memberStep, embeddedUsers] using ih us seen
    | user u =>
      by_cases h : normId u ∈ seen
      · simpa [memberStep, embeddedUsers, dedupByKey, dedupKeys, h] using ih us seen
      · have := ih (us ++ [u]) (normId u :: seen)
        simpa [memberStep, embeddedUsers, dedupByKey, dedupKeys, h] using this

/-- `getMemberUsers` is the fold of `memberStep` over owner, admins and
team in order. -/
theorem getMemberUsers_eq_spec (p : Project) :
    getMemberUsers p = memberUsersSpec p := by
  have h : getMemberUsers p =
      (List.foldl memberStep ([], []) (allMembers p)).1 := by
    simp [getMemberUsers, allMembers, List.foldl_append, List.foldl_cons]
  rw [h, foldl_memberStep]
  simp [memberUsersSpec]

/-- The deduplicated list has pairwise-distinct keys, none of them in the
initial seen-set. -/
theorem dedupByKey_keys_nodup (us : List User) (seen : List (Option String)) :
    ((dedupByKey us seen).map normId).Nodup ∧
      ∀ k ∈ (dedupByKey us seen).map normId, k ∉ seen := by
  induction us generalizing seen with
  | nil => simp [dedupByKey]
  | cons u rest ih =>
    by_cases h : normId u ∈ seen
    · simpa [dedupByKey, h] using ih seen
    · have ih2 := ih (normId u :: seen)
      refine ⟨?_, ?_⟩
      · rw [dedupByKey]
        simp only [h, if_false, List.map_cons, List.nodup_cons]
        refine ⟨fun hc => ?_, ih2.1⟩
        have := ih2.2 _ hc
        simp at this
      · intro k hk
        rw [dedupByKey] at hk
        simp only [h, if_false, List.map_cons, List.mem_cons] at hk
        rcases hk with rfl | hk
        · exact h
        · have := ih2.2 _ hk
          intro hs
          exact this (List.mem_cons_of_mem _ hs)

/-- Every record kept by the deduplication came from the input list. -/
theorem dedupByKey_subset (us : List User) (seen : List (Option String)) :
    ∀ u ∈ dedupByKey us seen, u ∈ us := by
  induction us generalizing seen with
  | nil => simp [dedupByKey]
  | cons v rest ih =>
    intro u hu
    rw [dedupByKey] at hu
    by_cases h : normId v ∈ seen
    · simp only [h, if_true] at hu
      exact List.mem_cons_of_mem _ (ih seen u hu)
    · simp only [h, if_false, List.mem_cons] at hu
      rcases hu with rfl | hu
      · exact List.mem_cons_self _ _
      · exact List.mem_cons_of_mem _ (ih (normId v :: seen) u hu)

/-- Every embedded record came from a `Member.user` entry of the list. -/
theorem embeddedUsers_mem (ms : List Member) :
    ∀ u ∈ embeddedUsers ms, Member.user u ∈ ms := by
  induction ms with
  | nil => simp [embeddedUsers]
  | cons m rest ih =>
    intro u hu
    cases m with
    | str s =>
      rw [embeddedUsers] at hu
      exact List.mem_cons_of_mem _ (ih u hu)
    | user v =>
      rw [embeddedUsers] at hu
      rcases List.mem_cons.mp hu with rfl | hu
      · exact List.mem_cons_self _ _
      · exact List.mem_cons_of_mem _ (ih u hu)

/-- C7: the member list equals the spec's first-seen deduplication of the
embedded records of owner, then admins, then team; its normalized
identifiers are pairwise distinct; and every entry is an embedded record
occurring among the project's membership entries (bare identifier strings
contribute nothing). -/
theorem getMemberUsers_spec (p : Project) :
    getMemberUsers p = memberUsersSpec p ∧
    ((getMemberUsers p).map normId).Nodup ∧
    ∀ u ∈ getMemberUsers p, Member.user u ∈ allMembers p := by
  refine ⟨getMemberUsers_eq_spec p, ?_, ?_⟩
  · rw [getMemberUsers_eq_spec p, memberUsersSpec]
    exact (dedupByKey_keys_nodup _ _).1
  · intro u hu
    rw [getMemberUsers_eq_spec p, memberUsersSpec] at hu
    exact embeddedUsers_mem _ u (dedupByKey_subset _ _ u hu)

end ProjectPage
